import Mathlib

/-!
Verification of the change-tracking storage layer (`src/storage/tracked.rs`).

The layer wraps a slot-indexed value store and records, per slot id, whether
the value was inserted, modified or removed since the last `reset`.  The
embedding below translates the Rust source directly:

* `Change` is the four-state tag enum.
* `Change.add` is the merge of a prior tag with an incoming event; the Rust
  method mutates `self` and panics on transitions outside its match arms, the
  embedding returns `Option Change` with `Option.none` for the panic branch.
* `TrackedStorage` carries the `changed` bitset (dirty set), the `changes`
  vector (change log), and the two parallel stores `old` (snapshot) and
  `storage` (live values), modelled as maps `Nat → Option C`.
* Fallible operations (those whose Rust counterpart can panic inside
  `Change::add`, or hit backend UB by removing an absent value) return
  `Option`.
-/

/-- The change tag enum of `tracked.rs` (lines 10–17): `None`, `Inserted`,
`Modified`, `Removed`. -/
inductive Change : Type where
  | none
  | inserted
  | modified
  | removed
  deriving DecidableEq

/-- Merge of a prior tag with an incoming event, from `Change::add`
(`tracked.rs` lines 20–32).  The Rust code assigns the matched arm's result to
`*self` and panics on any pair outside the six listed arms; the embedding
returns `some new` for a listed arm and `Option.none` for the panic branch. -/
def Change.add (old incoming : Change) : Option Change :=
  match old, incoming with
  | Change.none, new => some new
  | Change.inserted, Change.modified => some Change.inserted
  | Change.inserted, Change.removed => some Change.none
  | Change.modified, Change.modified => some Change.modified
  | Change.modified, Change.removed => some Change.removed
  | Change.removed, Change.inserted => some Change.modified
  | _, _ => Option.none

/-- The event iterator of `ChangeEvents::next` (`tracked.rs` lines 39–47):
enumerate the change log and keep the pairs whose tag is not `None`.  The Rust
iterator is a filtered `Enumerate` over a shared slice; as a function of the
log it yields this list. -/
def change_events (changes : List Change) : List (Nat × Change) :=
  changes.enum.filter (fun p => decide (p.2 ≠ Change.none))

/-- The `TrackedStorage` struct (`tracked.rs` lines 110–117): the `changed`
bitset, the `changes` vector, the snapshot store `old` and the live store
`storage`.  The two backing stores are modelled as partial maps from slot id
to value. -/
structure TrackedStorage (C : Type) where
  changed : Finset Nat
  changes : List Change
  old : Nat → Option C
  storage : Nat → Option C

namespace TrackedStorage

/-- The `Default` instance derived on the struct (`tracked.rs` lines 108–109):
empty bitset, empty change vector, empty stores. -/
def empty (C : Type) : TrackedStorage C :=
  { changed := ∅
    changes := []
    old := fun _ => Option.none
    storage := fun _ => Option.none }

/-- `TrackedStorage::insert_change` (`tracked.rs` lines 147–156): grow the
change vector with `None` up to `max (id+1) len`, then merge `val` into the
entry at `id`.  Returns `Option.none` when the merge panics. -/
def insert_change (changes : List Change) (id : Nat) (val : Change) :
    Option (List Change) :=
  let len := changes.length
  let grown := changes ++ List.replicate (max (id + 1) len - len) Change.none
  (Change.add (grown.getD id Change.none) val).map (fun c => grown.set id c)

/-- `TrackedStorage::reset` (`tracked.rs` lines 137–145): for every id in the
`changed` bitset copy the live value into the snapshot store, then clear the
bitset and overwrite every change-log entry with `None`. -/
def reset {C : Type} (s : TrackedStorage C) : TrackedStorage C :=
  { changed := ∅
    changes := s.changes.map (fun _ => Change.none)
    old := fun i => if i ∈ s.changed then s.storage i else s.old i
    storage := s.storage }

/-- `TrackedStorage::maintain` (`tracked.rs` lines 164–175): over the supplied
set of live ids, keep those whose snapshot value differs from the live value
and merge a `Modified` event into the change log for each, in iteration
order.  Only the change vector is touched; the `changed` bitset and the two
stores are left as they are.  Returns `Option.none` when some merge panics. -/
def maintain {C : Type} [DecidableEq C] (s : TrackedStorage C)
    (live : List Nat) : Option (TrackedStorage C) :=
  let diff := live.filter (fun id => decide (s.old id ≠ s.storage id))
  (diff.foldlM (fun cs id => insert_change cs id Change.modified) s.changes).map
    (fun cs => { s with changes := cs })

/-- `UnprotectedStorage::insert` for `TrackedStorage` (`tracked.rs` lines
199–205): add `id` to the `changed` bitset, merge an `Inserted` event into the
log, store a clone of the value in the snapshot store and the value itself in
the live store. -/
def insert {C : Type} (s : TrackedStorage C) (id : Nat) (value : C) :
    Option (TrackedStorage C) :=
  (insert_change s.changes id Change.inserted).map (fun cs =>
    { changed := Insert.insert id s.changed
      changes := cs
      old := fun i => if i = id then some value else s.old i
      storage := fun i => if i = id then some value else s.storage i })

/-- `UnprotectedStorage::remove` for `TrackedStorage` (`tracked.rs` lines
207–214): unmark `id` in the `changed` bitset, merge a `Removed` event into
the log, drop the snapshot entry, and remove and return the live value.  The
Rust backend call assumes the id is live; an absent value, like a panicking
merge, yields `Option.none`. -/
def remove {C : Type} (s : TrackedStorage C) (id : Nat) :
    Option (C × TrackedStorage C) :=
  match s.storage id, insert_change s.changes id Change.removed with
  | some v, some cs =>
      some (v,
        { changed := s.changed.erase id
          changes := cs
          old := fun i => if i = id then Option.none else s.old i
          storage := fun i => if i = id then Option.none else s.storage i })
  | _, _ => Option.none

/-- In-place mutation of a live value through `UnprotectedStorage::get_mut`
(`tracked.rs` lines 195–197): the accessor passes straight through to the live
store, so an assignment through the returned reference updates the live store
only, with no tracking side effect. -/
def write_live {C : Type} (s : TrackedStorage C) (id : Nat) (value : C) :
    TrackedStorage C :=
  { s with storage := fun i => if i = id then some value else s.storage i }

end TrackedStorage

/-- The Dirty Set invariant of §3 of the specification, read on a single
state: the `changed` bitset contains exactly the ids whose change-log entry is
currently `Inserted` or `Modified`.  (The specification's extra clause "and
that have not since been removed in this epoch" adds nothing at the level of a
single state: a removal merges the tag to `None` or `Removed`, and a
subsequent re-insert that makes the tag `Modified` also re-adds the id to the
bitset, so a tag can only be `Inserted` or `Modified` when no removal is the
latest structural event.) -/
def dirty_set_invariant {C : Type} (s : TrackedStorage C) : Prop :=
  ∀ id, id ∈ s.changed ↔
    (s.changes.getD id Change.none = Change.inserted ∨
      s.changes.getD id Change.none = Change.modified)

/-- The run `insert 0 1; reset; write 2 in place through get_mut;
maintain [0]` from the empty tracker: after the reset the snapshot holds `1`
while the live store holds `2`, so `maintain` detects a modification at
id 0. -/
def maintain_after_inplace_write : Option (TrackedStorage Nat) :=
  ((((TrackedStorage.empty Nat).insert 0 1).map TrackedStorage.reset).map
      (fun s => s.write_live 0 2)).bind
    (fun s => s.maintain [0])

/-- The run `insert 0 5; reset; remove 0` from the empty tracker, keeping the
value returned by `remove` alongside the final state. -/
def insert_reset_remove_trace : Option (Nat × TrackedStorage Nat) :=
  (((TrackedStorage.empty Nat).insert 0 5).map TrackedStorage.reset).bind
    (fun s => s.remove 0)

/-- A just-reset tracker state over two live slots whose snapshot at slot 1
is stale: reached from the empty tracker by `insert 0 1; insert 1 2; reset;
write 3 in place at slot 1 through get_mut; reset`.  The second `reset` copies
nothing (its dirty set is empty), so slot 1 keeps snapshot `2` against live
value `3`. -/
def stale_snapshot_state : Option (TrackedStorage Nat) :=
  ((((TrackedStorage.empty Nat).insert 0 1).bind
        (fun s => s.insert 1 2)).map TrackedStorage.reset).map
    (fun s => TrackedStorage.reset (s.write_live 1 3))

/-- Continuation of `stale_snapshot_state` by
`remove 0; insert 0 9; maintain [0, 1]`: the scenario of claim C7 run on a
just-reset state with a stale snapshot elsewhere. -/
def stale_snapshot_trace : Option (TrackedStorage Nat) :=
  ((stale_snapshot_state.bind (fun s => (s.remove 0).map Prod.snd)).bind
      (fun s => s.insert 0 9)).bind
    (fun s => s.maintain [0, 1])

/-- A store map holding value `5` at slot 0 and nothing elsewhere. -/
def single_slot_store : Nat → Option Nat :=
  fun i => if i = 0 then some 5 else Option.none

/-- A just-reset tracker with one live slot (id 0, value 5) and a synced
snapshot. -/
def just_reset_single : TrackedStorage Nat :=
  { changed := ∅
    changes := []
    old := single_slot_store
    storage := single_slot_store }

/-- A tracker state whose slot 0 has snapshot value `1` and live value `2`:
the snapshot is stale, so `maintain [0]` detects a modification. -/
def stale_single : TrackedStorage Nat :=
  { changed := ∅
    changes := []
    old := fun i => if i = 0 then some 1 else Option.none
    storage := fun i => if i = 0 then some 2 else Option.none }

section Helpers

open TrackedStorage

/-- Padding a change log with `None` entries does not alter any lookup with
default `None`. -/
theorem getD_append_replicate_none (cs : List Change) (k j : Nat) :
    (cs ++ List.replicate k Change.none).getD j Change.none =
      cs.getD j Change.none := by
  simp only [List.getD_eq_getElem?_getD, List.getElem?_append,
    List.getElem?_replicate]
  rcases Nat.lt_or_ge j cs.length with h | h
  · simp [h]
  · rw [List.getElem?_eq_none h]
    simp only [if_neg (Nat.not_lt.mpr h)]
    split <;> simp

/-- Writing at an index inside the list the value already stored there leaves
the list unchanged. -/
theorem set_getD_self (cs : List Change) (i : Nat) (h : i < cs.length) :
    cs.set i (cs.getD i Change.none) = cs := by
  induction cs generalizing i with
  | nil => simp at h
  | cons a t ih =>
    cases i with
    | zero => rfl
    | succ n =>
      simp only [List.set_cons_succ, List.getD_cons_succ]
      rw [ih n (by simpa using h)]

/-- Characterisation of a successful `insert_change`: the log grows to
`max (id+1) len`, the entry at `id` is the merge result, and every other
lookup is unchanged. -/
theorem insert_change_eq_some (cs cs' : List Change) (id : Nat) (val : Change)
    (h : insert_change cs id val = some cs') :
    cs'.length = max (id + 1) cs.length ∧
      Change.add (cs.getD id Change.none) val =
        some (cs'.getD id Change.none) ∧
      ∀ j, j ≠ id → cs'.getD j Change.none = cs.getD j Change.none := by
  unfold insert_change at h
  rw [Option.map_eq_some'] at h
  obtain ⟨c, hc, rfl⟩ := h
  have hlen : (cs ++ List.replicate (max (id + 1) cs.length - cs.length)
      Change.none).length = max (id + 1) cs.length := by
    simp [Nat.add_sub_cancel' (Nat.le_max_right (id + 1) cs.length),
      Nat.add_comm]
  rw [getD_append_replicate_none] at hc
  refine ⟨by simp [hlen], ?_, ?_⟩
  · rw [hc]
    congr 1
    have hid : id < (cs ++ List.replicate (max (id + 1) cs.length - cs.length)
        Change.none).length := by
      rw [hlen]; exact Nat.lt_of_lt_of_le (Nat.lt_succ_self id)
        (Nat.le_max_left _ _)
    simp [List.getD_eq_getElem?_getD, List.getElem?_set_self hid]
  · intro j hj
    simp only [List.getD_eq_getElem?_getD, List.getElem?_set_ne (Ne.symm hj)]
    simpa [List.getD_eq_getElem?_getD] using getD_append_replicate_none cs _ j

/-- `insert_change` succeeds exactly when the merge at the looked-up entry
succeeds. -/
theorem insert_change_isSome (cs : List Change) (id : Nat) (val : Change) :
    (insert_change cs id val).isSome =
      (Change.add (cs.getD id Change.none) val).isSome := by
  unfold insert_change
  simp only [getD_append_replicate_none]
  cases Change.add (cs.getD id Change.none) val <;> simp

/-- Merging an incoming `Removed` succeeds from every prior tag except
`Removed`. -/
theorem add_removed_isSome (t : Change) (h : t ≠ Change.removed) :
    (Change.add t Change.removed).isSome := by
  cases t <;> simp_all [Change.add]

/-- Merging an incoming `Modified` succeeds from every prior tag except
`Removed`, and the result is `Inserted` for prior tag `Inserted` and
`Modified` otherwise. -/
theorem add_modified_eq (t : Change) (h : t ≠ Change.removed) :
    Change.add t Change.modified =
      some (if t = Change.inserted then Change.inserted
        else Change.modified) := by
  cases t <;> simp_all [Change.add]

/-- Every id-tag pair of an `enumFrom` filtering pass over an all-`None` list
is dropped. -/
theorem filter_enumFrom_all_none (l : List Change) (n : Nat)
    (h : ∀ c ∈ l, c = Change.none) :
    (List.enumFrom n l).filter (fun p => decide (p.2 ≠ Change.none)) = [] := by
  rw [List.filter_eq_nil_iff]
  intro p hp
  have := List.snd_mem_of_mem_enumFrom hp
  simp [h p.2 this]

/-- Ascending ids: the pairs produced by `enumFrom` have strictly increasing
first components. -/
theorem pairwise_fst_lt_enumFrom {α : Type} (l : List α) (n : Nat) :
    List.Pairwise (fun a b => a.1 < b.1) (l.enumFrom n) := by
  induction l generalizing n with
  | nil => simp
  | cons a t ih =>
    rw [List.enumFrom_cons]
    refine List.Pairwise.cons (fun b hb => ?_) (ih (n + 1))
    exact Nat.lt_of_lt_of_le (Nat.lt_succ_self n)
      (List.le_fst_of_mem_enumFrom hb)

end Helpers

/-- Claim C1: for every pair of tags listed as defined in the §4.1 merge
table, the merge returns exactly the table's entry: `merge(None, x) = x` for
every incoming event `x`, `merge(Inserted, Modified) = Inserted`,
`merge(Inserted, Removed) = None`, `merge(Modified, Modified) = Modified`,
`merge(Modified, Removed) = Removed`, and
`merge(Removed, Inserted) = Modified`. -/
theorem merge_table_defined_entries :
    (∀ x : Change, Change.add Change.none x = some x) ∧
    Change.add Change.inserted Change.modified = some Change.inserted ∧
    Change.add Change.inserted Change.removed = some Change.none ∧
    Change.add Change.modified Change.modified = some Change.modified ∧
    Change.add Change.modified Change.removed = some Change.removed ∧
    Change.add Change.removed Change.inserted = some Change.modified := by
  refine ⟨fun x => ?_, rfl, rfl, rfl, rfl, rfl⟩
  cases x <;> rfl

/-- Claim C4, counterexample: the claim says `merge(t, None) = t` for every
prior tag `t`, but `Change::add` only matches `(None, new)`; a prior tag
`Inserted` with incoming `None` falls through to the panic arm, so the merge
does not return `Inserted`. -/
theorem merge_inserted_none_not_identity :
    Change.add Change.inserted Change.none ≠ some Change.inserted := by
  decide

/-- Claim C4, amended: `None` is a right identity of the merge only at prior
tag `None`; for the prior tags `Inserted`, `Modified` and `Removed` an
incoming `None` is outside the code's match arms and is treated as a fatal
error (the panic branch), not as an identity. -/
theorem merge_none_right_identity_only_at_none :
    Change.add Change.none Change.none = some Change.none ∧
    Change.add Change.inserted Change.none = Option.none ∧
    Change.add Change.modified Change.none = Option.none ∧
    Change.add Change.removed Change.none = Option.none := by
  exact ⟨rfl, rfl, rfl, rfl⟩

/-- Claim C9: merging any pair marked invalid in the §4.1 table —
`(Inserted, Inserted)`, `(Removed, Modified)` or `(Removed, Removed)` — takes
the fatal error branch (the Rust panic), producing no result tag. -/
theorem merge_invalid_pairs_fatal :
    Change.add Change.inserted Change.inserted = Option.none ∧
    Change.add Change.removed Change.modified = Option.none ∧
    Change.add Change.removed Change.removed = Option.none := by
  exact ⟨rfl, rfl, rfl⟩

/-- Claim C5: `reset` copies, for every id currently in the dirty set, the
live store's current value into the snapshot store at that id, empties the
dirty set, and sets every change-log entry over the full log length to
`None`; immediately afterwards the event sequence is empty and the dirty set
is empty. -/
theorem reset_spec {C : Type} (s : TrackedStorage C) :
    (s.reset).changed = ∅ ∧
    (s.reset).storage = s.storage ∧
    (∀ id, (s.reset).old id =
      if id ∈ s.changed then s.storage id else s.old id) ∧
    (s.reset).changes = List.replicate s.changes.length Change.none ∧
    change_events (s.reset).changes = [] := by
  refine ⟨rfl, rfl, fun id => rfl, by simp [TrackedStorage.reset], ?_⟩
  show (List.enumFrom 0 (s.changes.map fun _ => Change.none)).filter
      (fun p => decide (p.2 ≠ Change.none)) = []
  rw [List.map_const']
  exact filter_enumFrom_all_none _ 0 (fun c hc => List.eq_of_mem_replicate hc)

/-- Claim C8: `change_events` yields exactly the (id, tag) pairs of the
change-log indices whose tag is not `None`, in strictly ascending id order.
The embedding is a pure function of the log, which is exactly the source's
read-only restartable iterator: it does not mutate the log, and two runs on
the same log are the same list. -/
theorem change_events_spec (l : List Change) :
    List.Pairwise (fun a b : Nat × Change => a.1 < b.1) (change_events l) ∧
    ∀ (i : Nat) (c : Change),
      (i, c) ∈ change_events l ↔ (l[i]? = some c ∧ c ≠ Change.none) := by
  constructor
  · exact (pairwise_fst_lt_enumFrom l 0).filter _
  · intro i c
    unfold change_events
    rw [List.mem_filter, List.mk_mem_enum_iff_getElem?]
    simp

/-- Claim C6: `remove id`, for an id holding a live value (and a change-log
entry whose merge with `Removed` is defined), removes `id` from the dirty
set, merges a `Removed` event into the change log at `id`, deletes the
snapshot entry, and removes and returns the live value; and concretely, after
`insert 0 5; reset; remove 0` the event sequence is exactly
`[(0, Removed)]` while `0` is no longer in the dirty set. -/
theorem remove_spec :
    (∀ (C : Type) (s : TrackedStorage C) (id : Nat) (v : C),
        s.storage id = some v →
        s.changes.getD id Change.none ≠ Change.removed →
        ∃ s', s.remove id = some (v, s') ∧
          s'.changed = s.changed.erase id ∧
          id ∉ s'.changed ∧
          s'.old id = Option.none ∧
          s'.storage id = Option.none ∧
          Change.add (s.changes.getD id Change.none) Change.removed =
            some (s'.changes.getD id Change.none)) ∧
    insert_reset_remove_trace.map
        (fun p => (p.1, change_events p.2.changes, p.2.changed)) =
      some (5, [(0, Change.removed)], (∅ : Finset Nat)) := by
  constructor
  · intro C s id v hv ht
    have hs : (TrackedStorage.insert_change s.changes id
        Change.removed).isSome := by
      rw [insert_change_isSome]; exact add_removed_isSome _ ht
    obtain ⟨cs, hcs⟩ := Option.isSome_iff_exists.mp hs
    obtain ⟨hlen, hid, hne⟩ := insert_change_eq_some _ _ _ _ hcs
    refine ⟨⟨s.changed.erase id, cs,
        fun i => if i = id then Option.none else s.old i,
        fun i => if i = id then Option.none else s.storage i⟩,
      ?_, rfl, Finset.not_mem_erase _ _, by simp, by simp, by simpa using hid⟩
    unfold TrackedStorage.remove
    rw [hv, hcs]
  · decide

/-- Witness for claim C6: the general part of `remove_spec` applied to the
just-reset single-slot tracker at id 0, value 5. -/
theorem remove_spec_witness :
    ∃ s', just_reset_single.remove 0 = some (5, s') ∧
      s'.changed = just_reset_single.changed.erase 0 ∧
      0 ∉ s'.changed ∧
      s'.old 0 = Option.none ∧
      s'.storage 0 = Option.none ∧
      Change.add (just_reset_single.changes.getD 0 Change.none)
          Change.removed = some (s'.changes.getD 0 Change.none) :=
  remove_spec.1 Nat just_reset_single 0 5 rfl (by decide)

/-- Claim C2, evaluated at the failing input: starting from the reachable
state with snapshot value 1 and live value 2 at slot 0 (empty log, empty
dirty set), `maintain [0]` records `Modified` in the change log — but leaves
the dirty set empty, although the claim (and the source's own doc comments on
the `changed` bitset) say the id is added to the dirty set. -/
theorem maintain_skips_dirty_set :
    maintain_after_inplace_write.map (fun s => (s.changes, s.changed)) =
      some ([Change.modified], (∅ : Finset Nat)) := by
  decide

/-- Claim C3, evaluated at the failing input: after
`insert 0 1; reset; in-place write 2; maintain [0]` the change-log entry of
slot 0 is `Modified` while the dirty set does not contain 0, so the dirty-set
invariant does not survive `maintain`. -/
theorem dirty_set_invariant_broken_by_maintain :
    ∃ s : TrackedStorage Nat, maintain_after_inplace_write = some s ∧
      s.changes.getD 0 Change.none = Change.modified ∧
      0 ∉ s.changed ∧ ¬ dirty_set_invariant s := by
  have h : maintain_after_inplace_write.map (fun s => (s.changes, s.changed)) =
      some ([Change.modified], (∅ : Finset Nat)) := by decide
  cases hopt : maintain_after_inplace_write with
  | none => rw [hopt] at h; simp at h
  | some s =>
    rw [hopt] at h
    simp only [Option.map_some', Option.some.injEq, Prod.mk.injEq] at h
    obtain ⟨h1, h2⟩ := h
    refine ⟨s, rfl, by rw [h1]; rfl, by rw [h2]; simp, fun hinv => ?_⟩
    have h0 : 0 ∈ s.changed := (hinv 0).mpr (Or.inr (by rw [h1]; rfl))
    rw [h2] at h0
    simp at h0

/-- Filtering the enumeration of a log whose only non-`None` entry sits at
index `X` keeps exactly the pair for `X`. -/
theorem filter_enumFrom_single :
    ∀ (l : List Change) (n X : Nat), X < l.length →
      l.getD X Change.none = Change.modified →
      (∀ j, j ≠ X → l.getD j Change.none = Change.none) →
      (List.enumFrom n l).filter (fun p => decide (p.2 ≠ Change.none)) =
        [(n + X, Change.modified)] := by
  intro l
  induction l with
  | nil => intro n X hX; simp at hX
  | cons a t ih =>
    intro n X hX hXv hother
    cases X with
    | zero =>
      rw [List.getD_cons_zero] at hXv
      subst hXv
      rw [List.enumFrom_cons, List.filter_cons]
      have ht : ∀ c ∈ t, c = Change.none := by
        intro c hc
        obtain ⟨k, hk, rfl⟩ := List.mem_iff_getElem.mp hc
        have := hother (k + 1) (Nat.succ_ne_zero k)
        rwa [List.getD_cons_succ, List.getD_eq_getElem?_getD,
          List.getElem?_eq_getElem hk, Option.getD_some] at this
      rw [filter_enumFrom_all_none t (n + 1) ht]
      simp
    | succ k =>
      have ha : a = Change.none := by
        have := hother 0 (Ne.symm (Nat.succ_ne_zero k))
        rwa [List.getD_cons_zero] at this
      subst ha
      rw [List.enumFrom_cons, List.filter_cons]
      have hk : k < t.length := Nat.succ_lt_succ_iff.mp (by simpa using hX)
      have hkv : t.getD k Change.none = Change.modified := by
        rw [List.getD_cons_succ] at hXv; exact hXv
      have hko : ∀ j, j ≠ k → t.getD j Change.none = Change.none := by
        intro j hj
        have h2 := hother (j + 1) (by omega)
        rwa [List.getD_cons_succ] at h2
      rw [ih (n + 1) k hk hkv hko]
      have hnk : n + 1 + k = n + (k + 1) := by omega
      rw [hnk]
      simp

/-- A change log that is `None` everywhere except `Modified` at index `X`
yields the single event `(X, Modified)`. -/
theorem change_events_single (l : List Change) (X : Nat) (hX : X < l.length)
    (hXv : l.getD X Change.none = Change.modified)
    (hother : ∀ j, j ≠ X → l.getD j Change.none = Change.none) :
    change_events l = [(X, Change.modified)] := by
  have h := filter_enumFrom_single l 0 X hX hXv hother
  rw [Nat.zero_add] at h
  exact h

/-- `remove` on a live id with a successful `Removed` merge, written out. -/
theorem remove_eq {C : Type} (s : TrackedStorage C) (id : Nat) (v : C)
    (cs : List Change) (hv : s.storage id = some v)
    (hcs : TrackedStorage.insert_change s.changes id Change.removed =
      some cs) :
    s.remove id = some (v,
      { changed := s.changed.erase id
        changes := cs
        old := fun i => if i = id then Option.none else s.old i
        storage := fun i => if i = id then Option.none else s.storage i }) := by
  unfold TrackedStorage.remove
  rw [hv, hcs]

/-- `maintain` over a set of ids at which snapshot and live store agree
changes nothing and succeeds. -/
theorem maintain_eq_of_synced {C : Type} [DecidableEq C]
    (s : TrackedStorage C) (live : List Nat)
    (h : ∀ y ∈ live, s.old y = s.storage y) :
    s.maintain live = some s := by
  unfold TrackedStorage.maintain
  have hfil : live.filter (fun id => decide (s.old id ≠ s.storage id)) = [] := by
    rw [List.filter_eq_nil_iff]
    intro y hy
    simpa using h y hy
  simp only [hfil, List.foldlM_nil]
  rfl

/-- Claim C7, counterexample: `stale_snapshot_state` is a tracker state in
which id 0 is live and the epoch has just been reset (the state is literally
the result of a `reset`), yet `remove 0; insert 0 9; maintain [0, 1]` yields
`[(0, Modified), (1, Modified)]`, not exactly `[(0, Modified)]`: the second
reset re-baselined nothing for slot 1, whose snapshot was stale. -/
theorem stale_snapshot_counterexample :
    stale_snapshot_trace.map (fun s => change_events s.changes) =
        some [(0, Change.modified), (1, Change.modified)] ∧
      stale_snapshot_trace.map (fun s => change_events s.changes) ≠
        some [(0, Change.modified)] := by
  constructor
  · decide
  · decide

/-- Claim C7, amended: starting from a tracker state in which id `X` is live,
the epoch has just been reset (change log all `None`, dirty set empty), and
additionally the snapshot store agrees with the live store at every supplied
live id other than `X`, the run `remove X; insert X w; maintain live` yields
an event sequence of exactly `[(X, Modified)]`. -/
theorem remove_insert_maintain_modified {C : Type} [DecidableEq C]
    (s : TrackedStorage C) (live : List Nat) (X : Nat) (v w : C)
    (hlog : ∀ i, s.changes.getD i Change.none = Change.none)
    (hdirty : s.changed = ∅)
    (hXmem : X ∈ live)
    (hXlive : s.storage X = some v)
    (hsync : ∀ y ∈ live, y ≠ X → s.old y = s.storage y) :
    ((((s.remove X).map Prod.snd).bind (fun s1 => s1.insert X w)).bind
        (fun s2 => s2.maintain live)).map
        (fun sf => change_events sf.changes) =
      some [(X, Change.modified)] := by
  have h1s : (TrackedStorage.insert_change s.changes X Change.removed).isSome := by
    rw [insert_change_isSome, hlog X]; rfl
  obtain ⟨cs1, hcs1⟩ := Option.isSome_iff_exists.mp h1s
  obtain ⟨hlen1, hid1, hne1⟩ := insert_change_eq_some _ _ _ _ hcs1
  rw [hlog X] at hid1
  have hX1 : cs1.getD X Change.none = Change.removed := by
    simpa [Change.add] using hid1.symm
  have h2s : (TrackedStorage.insert_change cs1 X Change.inserted).isSome := by
    rw [insert_change_isSome, hX1]; rfl
  obtain ⟨cs2, hcs2⟩ := Option.isSome_iff_exists.mp h2s
  obtain ⟨hlen2, hid2, hne2⟩ := insert_change_eq_some _ _ _ _ hcs2
  rw [hX1] at hid2
  have hX2 : cs2.getD X Change.none = Change.modified := by
    simpa [Change.add] using hid2.symm
  have hother2 : ∀ j, j ≠ X → cs2.getD j Change.none = Change.none := by
    intro j hj
    rw [hne2 j hj, hne1 j hj, hlog j]
  have hXlen2 : X < cs2.length := by
    rw [hlen2]
    exact Nat.lt_of_lt_of_le (Nat.lt_succ_self X) (Nat.le_max_left _ _)
  have hev : change_events cs2 = [(X, Change.modified)] :=
    change_events_single cs2 X hXlen2 hX2 hother2
  rw [remove_eq s X v cs1 hXlive hcs1]
  simp only [Option.map_some', Option.some_bind, TrackedStorage.insert]
  rw [hcs2]
  simp only [Option.map_some', Option.some_bind]
  rw [maintain_eq_of_synced]
  · simp only [Option.map_some', hev]
  · intro y hy
    by_cases hyX : y = X
    · subst hyX
      simp
    · simp only [if_neg hyX]
      exact hsync y hy hyX

/-- Witness for the amended claim C7: the just-reset single-slot tracker,
removing and re-inserting slot 0 and maintaining over `[0]`. -/
theorem remove_insert_maintain_modified_witness :
    ((((just_reset_single.remove 0).map Prod.snd).bind
        (fun s1 => s1.insert 0 9)).bind
      (fun s2 => s2.maintain [0])).map (fun sf => change_events sf.changes) =
      some [(0, Change.modified)] :=
  remove_insert_maintain_modified just_reset_single [0] 0 5 9
    (fun i => by cases i <;> rfl) rfl (by decide) rfl
    (fun y hy hne => absurd (by simpa using hy) hne)

/-- Merging an incoming `Modified` at an entry that is already `Inserted` or
`Modified` leaves the log unchanged (and cannot fail). -/
theorem insert_change_fix (cs : List Change) (id : Nat) (hlt : id < cs.length)
    (htag : cs.getD id Change.none = Change.inserted ∨
      cs.getD id Change.none = Change.modified) :
    TrackedStorage.insert_change cs id Change.modified = some cs := by
  unfold TrackedStorage.insert_change
  have hmax : max (id + 1) cs.length - cs.length = 0 := by omega
  have hadd : Change.add (cs.getD id Change.none) Change.modified =
      some (cs.getD id Change.none) := by
    rcases htag with h | h <;> rw [h] <;> rfl
  simp only [hmax, List.replicate_zero, List.append_nil, hadd,
    Option.map_some']
  rw [set_getD_self cs id hlt]

/-- Folding `Modified` merges over a duplicate-free list of ids whose current
tags are not `Removed` succeeds, and folding again over the result is the
identity; lookups outside the list are unchanged. -/
theorem foldModified_idem :
    ∀ (L : List Nat) (cs : List Change), L.Nodup →
      (∀ id ∈ L, cs.getD id Change.none ≠ Change.removed) →
      ∃ cs₁,
        L.foldlM (fun c i => TrackedStorage.insert_change c i Change.modified)
            cs = some cs₁ ∧
        L.foldlM (fun c i => TrackedStorage.insert_change c i Change.modified)
            cs₁ = some cs₁ ∧
        cs.length ≤ cs₁.length ∧
        (∀ j, j ∉ L → cs₁.getD j Change.none = cs.getD j Change.none) := by
  intro L
  induction L with
  | nil =>
    intro cs _ _
    exact ⟨cs, rfl, rfl, Nat.le_refl _, fun j _ => rfl⟩
  | cons id L' ih =>
    intro cs hnd htags
    have hid : cs.getD id Change.none ≠ Change.removed :=
      htags id (List.mem_cons_self id L')
    have h1s : (TrackedStorage.insert_change cs id Change.modified).isSome := by
      rw [insert_change_isSome, add_modified_eq _ hid]; rfl
    obtain ⟨cs', hcs'⟩ := Option.isSome_iff_exists.mp h1s
    obtain ⟨hlen', hid', hne'⟩ := insert_change_eq_some _ _ _ _ hcs'
    rw [add_modified_eq _ hid] at hid'
    have hid'tag : cs'.getD id Change.none = Change.inserted ∨
        cs'.getD id Change.none = Change.modified := by
      have h2 := Option.some.inj hid'
      by_cases h : cs.getD id Change.none = Change.inserted
      · rw [if_pos h] at h2
        exact Or.inl h2.symm
      · rw [if_neg h] at h2
        exact Or.inr h2.symm
    have hndL : L'.Nodup := (List.nodup_cons.mp hnd).2
    have hidL : id ∉ L' := (List.nodup_cons.mp hnd).1
    have htags' : ∀ j ∈ L', cs'.getD j Change.none ≠ Change.removed := by
      intro j hj
      have hjid : j ≠ id := fun h => hidL (h ▸ hj)
      rw [hne' j hjid]
      exact htags j (List.mem_cons_of_mem _ hj)
    obtain ⟨cs₁, hf1, hf2, hlen1, hout⟩ := ih cs' hndL htags'
    have hcs₁id : cs₁.getD id Change.none = cs'.getD id Change.none :=
      hout id hidL
    have hidlt : id < cs₁.length := by
      have h3 : id + 1 ≤ cs'.length := by
        rw [hlen']; exact Nat.le_max_left _ _
      omega
    have hfix : TrackedStorage.insert_change cs₁ id Change.modified =
        some cs₁ :=
      insert_change_fix cs₁ id hidlt (by rw [hcs₁id]; exact hid'tag)
    refine ⟨cs₁, ?_, ?_, ?_, ?_⟩
    · rw [List.foldlM_cons, hcs']
      exact hf1
    · rw [List.foldlM_cons, hfix]
      exact hf2
    · calc cs.length ≤ cs'.length := by
            rw [hlen']; exact Nat.le_max_right _ _
        _ ≤ cs₁.length := hlen1
    · intro j hj
      have hj1 : j ≠ id := by
        intro h
        exact hj (h ▸ List.mem_cons_self id L')
      have hj2 : j ∉ L' := fun h => hj (List.mem_cons_of_mem _ h)
      rw [hout j hj2, hne' j hj1]

/-- Claim C10: `maintain` is idempotent.  For a tracker state and a
duplicate-free live-id list such that every live id is present in both stores
and no live id with differing snapshot and live values currently carries a
`Removed` tag, the first `maintain` succeeds and running `maintain` again
with the same live ids returns exactly the same state (change log, dirty
set and both stores). -/
theorem maintain_idempotent {C : Type} [DecidableEq C]
    (s : TrackedStorage C) (live : List Nat)
    (hnd : live.Nodup)
    (hpres : ∀ y ∈ live, (s.old y).isSome ∧ (s.storage y).isSome)
    (hrem : ∀ y ∈ live, s.old y ≠ s.storage y →
      s.changes.getD y Change.none ≠ Change.removed) :
    ∃ s₁, s.maintain live = some s₁ ∧ s₁.maintain live = some s₁ := by
  have hnd' : (live.filter
      (fun id => decide (s.old id ≠ s.storage id))).Nodup := hnd.filter _
  have htags : ∀ id ∈ live.filter
      (fun id => decide (s.old id ≠ s.storage id)),
      s.changes.getD id Change.none ≠ Change.removed := by
    intro id hid
    rw [List.mem_filter] at hid
    exact hrem id hid.1 (by simpa using hid.2)
  obtain ⟨cs₁, hf1, hf2, _, _⟩ := foldModified_idem _ s.changes hnd' htags
  refine ⟨{ s with changes := cs₁ }, ?_, ?_⟩
  · unfold TrackedStorage.maintain
    simp only [hf1, Option.map_some']
  · unfold TrackedStorage.maintain
    simp only [hf2, Option.map_some']

/-- Witness for claim C10: the stale single-slot tracker (snapshot 1, live 2
at slot 0) maintained twice over `[0]`. -/
theorem maintain_idempotent_witness :
    ∃ s₁, stale_single.maintain [0] = some s₁ ∧
      s₁.maintain [0] = some s₁ :=
  maintain_idempotent stale_single [0] (by decide)
    (fun y hy => by
      have hy0 : y = 0 := by simpa using hy
      subst hy0
      exact ⟨rfl, rfl⟩)
    (fun y hy h => by
      have hy0 : y = 0 := by simpa using hy
      subst hy0
      decide)
